import Mathlib

/-!
Shallow embedding of the audio session and buffering engine of the
Vedoice-Ai repository: the base64/PCM codec (src/utils/audioUtils.ts),
the batch synthesis orchestrator (generateSpeech), the streaming playback
scheduler (VoiceControlPanel), the live session manager
(createLiveSessionManager) and the buffer combiner (DownloadOptions).
Bytes are Nat below 256, audio samples are rationals, and machine 16-bit
conversions are made explicit with truncation and wrap-around modulo 2^16.
-/

namespace Vedoice

/-! ## Base64 codec: model of btoa/atob as used by encode/decode in
src/utils/audioUtils.ts.  `encode` turns a byte array into a binary string
and applies btoa; `decode` applies atob and reads char codes back. -/

/-- The 64-character base64 alphabet, as character codes are irrelevant we
keep the characters themselves. -/
def b64Alphabet : List Char :=
  ['A','B','C','D','E','F','G','H','I','J','K','L','M','N','O','P',
   'Q','R','S','T','U','V','W','X','Y','Z',
   'a','b','c','d','e','f','g','h','i','j','k','l','m','n','o','p',
   'q','r','s','t','u','v','w','x','y','z',
   '0','1','2','3','4','5','6','7','8','9','+','/']

/-- Character for a 6-bit value. -/
def b64Char (n : Nat) : Char := b64Alphabet.getD n 'A'

/-- Inverse lookup in the base64 alphabet; none for characters outside it. -/
def b64Index (c : Char) : Option Nat :=
  if c ∈ b64Alphabet then some (b64Alphabet.indexOf c) else none

/-- btoa on a byte list, processing input in groups of three bytes. -/
def encodeGroups : List Nat → List Char
  | [] => []
  | [a] => [b64Char (a / 4), b64Char (a % 4 * 16), '=', '=']
  | [a, b] => [b64Char (a / 4), b64Char (a % 4 * 16 + b / 16),
               b64Char (b % 16 * 4), '=']
  | a :: b :: c :: rest =>
      b64Char (a / 4) :: b64Char (a % 4 * 16 + b / 16) ::
      b64Char (b % 16 * 4 + c / 64) :: b64Char (c % 64) :: encodeGroups rest

/-- `encode` from audioUtils.ts: bytes to base64 text. -/
def encode (bytes : List Nat) : List Char := encodeGroups bytes

/-- atob on a character list: four characters decode to three bytes, with
the usual padding forms; malformed input yields none (atob throws). -/
def decodeGroups : List Char → Option (List Nat)
  | [] => some []
  | c1 :: c2 :: c3 :: c4 :: rest =>
      if c3 = '=' ∧ c4 = '=' ∧ rest = [] then
        match b64Index c1, b64Index c2 with
        | some n1, some n2 =>
            if n2 % 16 = 0 then some [n1 * 4 + n2 / 16] else none
        | _, _ => none
      else if c4 = '=' ∧ rest = [] then
        match b64Index c1, b64Index c2, b64Index c3 with
        | some n1, some n2, some n3 =>
            if n3 % 4 = 0 then
              some [n1 * 4 + n2 / 16, n2 % 16 * 16 + n3 / 4]
            else none
        | _, _, _ => none
      else
        match b64Index c1, b64Index c2, b64Index c3, b64Index c4 with
        | some n1, some n2, some n3, some n4 =>
            (decodeGroups rest).map fun tail =>
              (n1 * 4 + n2 / 16) :: (n2 % 16 * 16 + n3 / 4) ::
              (n3 % 4 * 64 + n4) :: tail
        | _, _, _, _ => none
  | _ => none

/-- `decode` from audioUtils.ts: base64 text to bytes, none on malformed
input. -/
def decode (s : List Char) : Option (List Nat) := decodeGroups s

theorem b64Index_b64Char : ∀ n < 64, b64Index (b64Char n) = some n := by
  decide

theorem b64Char_ne_pad : ∀ n < 64, b64Char n ≠ '=' := by
  decide

/-- atob is a left inverse of btoa on genuine byte arrays. -/
theorem decode_encode (bytes : List Nat) (h : ∀ x ∈ bytes, x < 256) :
    decode (encode bytes) = some bytes := by
  unfold decode encode
  induction bytes using encodeGroups.induct with
  | case1 => rfl
  | case2 a =>
      have ha : a < 256 := h a (by simp)
      simp only [encodeGroups, decodeGroups]
      rw [if_pos (by simp),
        b64Index_b64Char _ (by omega), b64Index_b64Char _ (by omega)]
      dsimp only
      rw [if_pos (by omega)]
      simp only [Option.some.injEq, List.cons.injEq, and_true]
      omega
  | case3 a b =>
      have ha : a < 256 := h a (by simp)
      have hb : b < 256 := h b (by simp)
      simp only [encodeGroups, decodeGroups]
      rw [if_neg (by
        intro hcon
        exact b64Char_ne_pad _ (by omega) hcon.1)]
      rw [if_pos (by simp),
        b64Index_b64Char _ (by omega), b64Index_b64Char _ (by omega),
        b64Index_b64Char _ (by omega)]
      dsimp only
      rw [if_pos (by omega)]
      simp only [Option.some.injEq, List.cons.injEq, and_true]
      constructor
      · omega
      · omega
  | case4 a b c rest ih =>
      have ha : a < 256 := h a (by simp)
      have hb : b < 256 := h b (by simp)
      have hc : c < 256 := h c (by simp)
      have hrest : ∀ x ∈ rest, x < 256 := by
        intro x hx
        exact h x (by simp [hx])
      simp only [encodeGroups, decodeGroups]
      rw [if_neg (by
        intro hcon
        exact b64Char_ne_pad _ (by omega) hcon.1)]
      rw [if_neg (by
        intro hcon
        exact b64Char_ne_pad _ (by omega) hcon.1)]
      rw [b64Index_b64Char _ (by omega), b64Index_b64Char _ (by omega),
        b64Index_b64Char _ (by omega), b64Index_b64Char _ (by omega)]
      rw [ih hrest]
      simp only [Option.map_some, Option.some.injEq]
      have e1 : a / 4 * 4 + (a % 4 * 16 + b / 16) / 16 = a := by omega
      have e2 : (a % 4 * 16 + b / 16) % 16 * 16 + (b % 16 * 4 + c / 64) / 4
          = b := by omega
      have e3 : (b % 16 * 4 + c / 64) % 4 * 64 + c % 64 = c := by omega
      rw [e1, e2, e3]
      simp

/-! ## 16-bit PCM primitives.

JavaScript typed-array element conversion (ECMAScript ToInt16) truncates a
number toward zero and wraps the integer modulo 2^16 into [-32768, 32767].
`truncQ` is the truncation, `toInt16` the wrap, `toSigned16` reads two's
complement back from an unsigned 16-bit value. -/

/-- Truncation toward zero of a rational (ECMAScript ToIntegerOrInfinity). -/
def truncQ (q : ℚ) : ℤ := if 0 ≤ q then ⌊q⌋ else ⌈q⌉

/-- Wrap an integer into the signed 16-bit range (ECMAScript ToInt16). -/
def toInt16 (n : ℤ) : ℤ := (n + 32768) % 65536 - 32768

/-- Unsigned 16-bit representation of a signed 16-bit value (the two bytes
an Int16Array stores). -/
def uint16 (v : ℤ) : ℕ := (v % 65536).toNat

/-- Two's-complement reading of an unsigned 16-bit value. -/
def toSigned16 (n : ℕ) : ℤ := if n < 32768 then (n : ℤ) else (n : ℤ) - 65536

/-- Little-endian byte pair of a 16-bit unsigned value. -/
def u16le (n : ℕ) : List ℕ := [n % 256, n / 256 % 256]

/-- Little-endian four bytes of a 32-bit unsigned value
(DataView.setUint32 little-endian). -/
def u32le (n : ℕ) : List ℕ :=
  [n % 256, n / 256 % 256, n / 65536 % 256, n / 16777216 % 256]

/-- Little-endian byte pair of a signed 16-bit value
(DataView.setInt16 little-endian). -/
def i16le (v : ℤ) : List ℕ := u16le (uint16 v)

/-- View a byte list as an Int16Array (little-endian pairs), as
`new Int16Array(data.buffer)` does. -/
def bytesToInt16 : List ℕ → List ℤ
  | b0 :: b1 :: rest => toSigned16 (b0 % 256 + 256 * (b1 % 256)) :: bytesToInt16 rest
  | _ => []

/-- Serialize an Int16Array to its underlying little-endian bytes. -/
def int16ToBytes (l : List ℤ) : List ℕ := l.flatMap i16le

theorem toSigned16_uint16 {v : ℤ} (h1 : -32768 ≤ v) (h2 : v ≤ 32767) :
    toSigned16 (uint16 v) = v := by
  unfold toSigned16 uint16
  omega

theorem toInt16_eq_self {n : ℤ} (h1 : -32768 ≤ n) (h2 : n ≤ 32767) :
    toInt16 n = n := by
  unfold toInt16
  omega

theorem toInt16_range (n : ℤ) : -32768 ≤ toInt16 n ∧ toInt16 n ≤ 32767 := by
  unfold toInt16
  omega

theorem bytesToInt16_int16ToBytes (l : List ℤ)
    (h : ∀ v ∈ l, -32768 ≤ v ∧ v ≤ 32767) :
    bytesToInt16 (int16ToBytes l) = l := by
  induction l with
  | nil => rfl
  | cons v rest ih =>
      obtain ⟨h1, h2⟩ := h v (by simp)
      simp only [int16ToBytes, List.flatMap, i16le, u16le, List.map_cons,
        List.flatten_cons, List.cons_append, List.append_eq, List.nil_append,
        bytesToInt16] at ih ⊢
      rw [ih fun x hx => h x (by simp [hx])]
      have : uint16 v % 256 % 256 + 256 * (uint16 v / 256 % 256 % 256) = uint16 v := by
        unfold uint16
        omega
      rw [this, toSigned16_uint16 h1 h2]

theorem int16ToBytes_lt (l : List ℤ) : ∀ b ∈ int16ToBytes l, b < 256 := by
  intro b hb
  simp only [int16ToBytes, List.mem_flatMap] at hb
  obtain ⟨v, _, hv⟩ := hb
  simp only [i16le, u16le, List.mem_cons, List.not_mem_nil, or_false] at hv
  rcases hv with h | h
  · omega
  · omega

/-! ## Audio buffers.

A decoded audio buffer: a sample rate and one list of rational samples per
channel.  `length` is the frame count (the Web Audio AudioBuffer keeps all
channels at the same length; where a claim needs it we carry that as an
explicit well-formedness hypothesis). -/

structure AudioBuffer where
  sampleRate : ℕ
  channelData : List (List ℚ)
  deriving DecidableEq, Repr

namespace AudioBuffer

def numberOfChannels (b : AudioBuffer) : ℕ := b.channelData.length

def length (b : AudioBuffer) : ℕ := (b.channelData.getD 0 []).length

def getChannelData (b : AudioBuffer) (c : ℕ) : List ℚ := b.channelData.getD c []

/-- All channels have the frame count `length`. -/
def WF (b : AudioBuffer) : Prop := ∀ ch ∈ b.channelData, ch.length = b.length

instance (b : AudioBuffer) : Decidable b.WF := by
  unfold WF
  infer_instance

def duration (b : AudioBuffer) : ℚ := (b.length : ℚ) / (b.sampleRate : ℚ)

end AudioBuffer

/-- ctx.createBuffer: a zero-initialised buffer. -/
def createBuffer (numChannels frameCount sampleRate : ℕ) : AudioBuffer :=
  { sampleRate := sampleRate,
    channelData := List.replicate numChannels (List.replicate frameCount 0) }

/-- `decodeAudioData` from audioUtils.ts: view the bytes as little-endian
16-bit samples, de-interleave into `numChannels` channels and scale by
1/32768. -/
def decodeAudioData (data : List ℕ) (sampleRate numChannels : ℕ) :
    AudioBuffer :=
  let dataInt16 := bytesToInt16 data
  let frameCount := dataInt16.length / numChannels
  { sampleRate := sampleRate,
    channelData := (List.range numChannels).map fun channel =>
      (List.range frameCount).map fun i =>
        ((dataInt16.getD (i * numChannels + channel) 0 : ℤ) : ℚ) / 32768 }

/-- `new Int16Array(data.buffer)` throws on a buffer of odd byte length;
the live path catches that as a decode error. -/
def decodeAudioDataE (data : List ℕ) (sampleRate numChannels : ℕ) :
    Except String AudioBuffer :=
  if data.length % 2 = 0 then
    Except.ok (decodeAudioData data sampleRate numChannels)
  else
    Except.error "RangeError: invalid typed array length"

/-- `createPcmBlob` from audioUtils.ts: scale each float sample by 32768,
store through an Int16Array (truncate toward zero, wrap modulo 2^16),
serialize the bytes and base64-encode them. -/
def createPcmBlob (data : List ℚ) : List Char × String :=
  let int16 := data.map fun x => toInt16 (truncQ (x * 32768))
  (encode (int16ToBytes int16), "audio/pcm;rate=16000")

/-! ## WAV serialization (`audioBufferToWavBlob` in audioUtils.ts). -/

/-- Clamp a sample to [-1, 1] and scale to 16 bits: negative samples by
0x8000, non-negative by 0x7FFF; DataView.setInt16 then truncates toward
zero (no wrap can occur on this range). -/
def pcmSample (q : ℚ) : ℤ :=
  let s := max (-1) (min 1 q)
  toInt16 (truncQ (if s < 0 then s * 32768 else s * 32767))

/-- Channel-interleaved samples of a buffer:
interleaved[i * numOfChan + channel] = channelData[channel][i]. -/
def interleave (b : AudioBuffer) : List ℚ :=
  (List.range b.length).flatMap fun i =>
    (List.range b.numberOfChannels).map fun channel =>
      (b.getChannelData channel).getD i 0

/-- The 44 header bytes written by audioBufferToWavBlob.  The four-letter
tags are the char codes of RIFF, WAVE, fmt and data. -/
def wavHeader (numOfChan len sampleRate : ℕ) : List ℕ :=
  [82, 73, 70, 70] ++ u32le (len * numOfChan * 2 + 44 - 8) ++
  [87, 65, 86, 69] ++ [102, 109, 116, 32] ++ u32le 16 ++ u16le 1 ++
  u16le numOfChan ++ u32le sampleRate ++ u32le (sampleRate * numOfChan * 2) ++
  u16le (numOfChan * 2) ++ u16le 16 ++ [100, 97, 116, 97] ++
  u32le (len * numOfChan * 2)

/-- `audioBufferToWavBlob` from audioUtils.ts, as the byte list of the
produced blob. -/
def audioBufferToWavBlob (b : AudioBuffer) : List ℕ :=
  wavHeader b.numberOfChannels b.length b.sampleRate ++
    (interleave b).flatMap fun s => i16le (pcmSample s)

/-- Little-endian 16-bit read at byte offset k. -/
def readU16 (l : List ℕ) (k : ℕ) : ℕ := l.getD k 0 + 256 * l.getD (k + 1) 0

/-- Little-endian 32-bit read at byte offset k. -/
def readU32 (l : List ℕ) (k : ℕ) : ℕ :=
  l.getD k 0 + 256 * l.getD (k + 1) 0 + 65536 * l.getD (k + 2) 0 +
    16777216 * l.getD (k + 3) 0

/-- Little-endian signed 16-bit read at byte offset k. -/
def readI16 (l : List ℕ) (k : ℕ) : ℤ := toSigned16 (readU16 l k)

/-! ## Batch synthesis orchestrator (`generateSpeech`, src/unnamed/part_005).

A segment's remote synthesis call is an oracle `api : ℕ → Except String
(Option (List Char))` from the original index to an error (rejected call),
no audio payload, or an inline base64 audio payload; `uuid` stands in for
crypto.randomUUID.  Each in-flight call is tagged with its original index;
Promise.all collects them; its results are filtered, sorted by original
index and projected. -/

/-- Output sample rate of the TTS API (src constants). -/
def DEFAULT_SAMPLE_RATE : ℕ := 24000

/-- JavaScript String.prototype.trim: strip leading and trailing
whitespace. -/
def jsTrim (s : String) : String :=
  String.mk
    (((s.data.dropWhile Char.isWhitespace).reverse.dropWhile
      Char.isWhitespace).reverse)

structure GeneratedAudioChunk where
  id : String
  text : String
  audioBuffer : AudioBuffer
  deriving DecidableEq, Repr

/-- One segment's task in generateSpeech: empty-trim segments resolve to a
null chunk; otherwise the call either rejects (error), resolves with no
audio (null chunk), or resolves with audio that is base64-decoded and
PCM-decoded into a chunk (a decoding throw rejects the task, since it is
raised inside the task's try block and re-thrown). -/
def segResultE (api : ℕ → Except String (Option (List Char)))
    (uuid : ℕ → String) (originalIndex : ℕ) (segment : String) :
    Except String (ℕ × Option GeneratedAudioChunk) :=
  if jsTrim segment = "" then Except.ok (originalIndex, none)
  else
    match api originalIndex with
    | Except.error e => Except.error e
    | Except.ok none => Except.ok (originalIndex, none)
    | Except.ok (some base64Audio) =>
        match decode base64Audio with
        | none => Except.error "InvalidCharacterError"
        | some bytes =>
            match decodeAudioDataE bytes DEFAULT_SAMPLE_RATE 1 with
            | Except.error e => Except.error e
            | Except.ok audioBuffer =>
                Except.ok (originalIndex,
                  some { id := uuid originalIndex, text := jsTrim segment,
                         audioBuffer := audioBuffer })

/-- The tagged in-flight tasks, one per script segment, in script order. -/
def taggedResults (segs : List String)
    (api : ℕ → Except String (Option (List Char))) (uuid : ℕ → String) :
    List (Except String (ℕ × Option GeneratedAudioChunk)) :=
  segs.enum.map fun p => segResultE api uuid p.1 p.2

/-- Promise.all: the whole batch rejects as soon as any task rejects,
otherwise all resolved values are collected. -/
def promiseAll : List (Except String α) → Except String (List α)
  | [] => Except.ok []
  | Except.error e :: _ => Except.error e
  | Except.ok a :: rest => (promiseAll rest).map fun l => a :: l

/-- Comparison used by results.sort((a, b) => a.originalIndex - b.originalIndex). -/
def idxLE (a b : ℕ × Option GeneratedAudioChunk) : Prop := a.1 ≤ b.1

/-- Strict version, for uniqueness of the sorted order. -/
def idxLT (a b : ℕ × Option GeneratedAudioChunk) : Prop := a.1 < b.1

instance : DecidableRel idxLE := fun a b => Nat.decLe a.1 b.1

instance : IsTotal (ℕ × Option GeneratedAudioChunk) idxLE :=
  ⟨fun a b => Nat.le_total a.1 b.1⟩

instance : IsTrans (ℕ × Option GeneratedAudioChunk) idxLE :=
  ⟨fun _ _ _ h1 h2 => Nat.le_trans h1 h2⟩

instance : IsAntisymm (ℕ × Option GeneratedAudioChunk) idxLT :=
  ⟨fun _ _ h1 h2 => absurd (Nat.lt_trans h1 h2) (Nat.lt_irrefl _)⟩

/-- Lines 138-141 of part_005: filter out null chunks, sort by original
index, project the chunks. -/
def reorderResults (results : List (ℕ × Option GeneratedAudioChunk)) :
    List GeneratedAudioChunk :=
  ((results.filter fun r => r.2.isSome).insertionSort idxLE).filterMap
    fun r => r.2

/-- `generateSpeech` after validation: run all segment tasks, collect them
with Promise.all, then filter/sort/project. -/
def generateSpeechE (segs : List String)
    (api : ℕ → Except String (Option (List Char))) (uuid : ℕ → String) :
    Except String (List GeneratedAudioChunk) :=
  match promiseAll (taggedResults segs api uuid) with
  | Except.error e => Except.error e
  | Except.ok results => Except.ok (reorderResults results)

/-- The chunk of one resolved task, when the task succeeded with audio. -/
def okChunk : Except String (ℕ × Option GeneratedAudioChunk) →
    Option GeneratedAudioChunk
  | Except.ok (_, some c) => some c
  | _ => none

/-- The chunks of the successful segments in original script order. -/
def inOrderChunks (segs : List String)
    (api : ℕ → Except String (Option (List Char))) (uuid : ℕ → String) :
    List GeneratedAudioChunk :=
  (taggedResults segs api uuid).filterMap okChunk

/-- The trace of (processedCount, totalChunks) arguments passed to the
progress callback during a run over `n` segments whose tasks resolve in
the order listed in `order`: one initial report of (0, n) (line 52 of
part_005), then, for each resolving segment, an increment of the shared
processedCount followed by one report (every branch of the task body
increments and reports exactly once). -/
def segmentResolutionTrace (n : ℕ) : List ℕ → ℕ → List (ℕ × ℕ)
  | [], _ => []
  | _ :: rest, c => (c + 1, n) :: segmentResolutionTrace n rest (c + 1)

def progressTrace (n : ℕ) (order : List ℕ) : List (ℕ × ℕ) :=
  (0, n) :: segmentResolutionTrace n order 0

/-! ## Streaming playback scheduler (VoiceControlPanel, src/unnamed/part_001).

State of the refs audioQueueRef, nextStartTimeRef, audioSourceNodesRef and
the isLiveActive flag; the audio clock (outputAudioContext.currentTime) is
a read-only input of each call. -/

structure SchedState where
  audioQueue : List AudioBuffer
  nextStartTime : ℚ
  activeSourceCount : ℕ
  isLiveActive : Bool
  deriving DecidableEq, Repr

/-- `playQueuedAudio`: no-op when the queue is empty or the live session is
inactive; otherwise shift one buffer, schedule it at
max(nextStartTime, currentTime), advance the end-time cursor by its
duration and track the source node.  Returns the new state and the
scheduled (startTime, buffer), if any. -/
def playQueuedAudio (currentTime : ℚ) (st : SchedState) :
    SchedState × Option (ℚ × AudioBuffer) :=
  match st.audioQueue with
  | [] => (st, none)
  | buffer :: rest =>
      if st.isLiveActive = false then (st, none)
      else
        let start := max st.nextStartTime currentTime
        ({ st with
            audioQueue := rest,
            nextStartTime := start + buffer.duration,
            activeSourceCount := st.activeSourceCount + 1 },
         some (start, buffer))

/-- `handleLiveAudioChunk`: push the buffer, then schedule immediately only
when no source is active or the clock has reached the scheduled end. -/
def handleLiveAudioChunk (currentTime : ℚ) (st : SchedState)
    (audioBuffer : AudioBuffer) : SchedState × Option (ℚ × AudioBuffer) :=
  let st1 := { st with audioQueue := st.audioQueue ++ [audioBuffer] }
  if st1.activeSourceCount = 0 ∨ st1.nextStartTime ≤ currentTime then
    playQueuedAudio currentTime st1
  else (st1, none)

/-! ## Live session manager (createLiveSessionManager, src/unnamed/part_005,
wired to its callbacks in src/unnamed/part_001). -/

inductive Speaker where
  | user
  | model
  deriving DecidableEq, Repr

structure LiveSpeakerTurn where
  id : String
  speaker : Speaker
  text : String
  deriving DecidableEq, Repr

/-- The manager's mutable captures: the resource handles as held/released
flags and the transcription accumulators. -/
structure ManagerState where
  mediaStream : Bool
  scriptProcessorNode : Bool
  sessionOpen : Bool
  currentInputTranscription : String
  currentOutputTranscription : String
  accumulatedTurns : List LiveSpeakerTurn
  deriving DecidableEq, Repr

/-- `stop` of the manager: stop and drop the microphone stream, disconnect
and drop the processing node, close the session, reset the transcription
accumulators. -/
def stopManager (_ : ManagerState) : ManagerState :=
  { mediaStream := false, scriptProcessorNode := false, sessionOpen := false,
    currentInputTranscription := "", currentOutputTranscription := "",
    accumulatedTurns := [] }

/-- Lines 243-255 of part_005: on serverContent.turnComplete, seal the two
accumulators into turn records (non-empty sides only, user first), append
to the turn history, emit a copy of the history through onCompleteTurn,
and clear both accumulators.  `uuidU`/`uuidM` stand in for the two
crypto.randomUUID calls.  Returns the new state and the emitted history. -/
def handleTurnComplete (uuidU uuidM : String) (st : ManagerState) :
    ManagerState × List LiveSpeakerTurn :=
  let fullInput := st.currentInputTranscription
  let fullOutput := st.currentOutputTranscription
  let turns1 := if fullInput ≠ "" then
      st.accumulatedTurns ++
        [{ id := uuidU, speaker := Speaker.user, text := fullInput }]
    else st.accumulatedTurns
  let turns2 := if fullOutput ≠ "" then
      turns1 ++ [{ id := uuidM, speaker := Speaker.model, text := fullOutput }]
    else turns1
  ({ st with
      accumulatedTurns := turns2,
      currentInputTranscription := "",
      currentOutputTranscription := "" },
   turns2)

/-- Lines 257-271 of part_005: an inline audio payload is base64-decoded
and PCM-decoded; on success the buffer goes to onAudioChunk, and a decoding
throw is caught and reported through onError.  The handler is parametrized
by what the registered onError callback does to the manager state. -/
def handleInlineAudio (onErrorHook : ManagerState → ManagerState)
    (st : ManagerState) (base64EncodedAudioString : List Char) :
    ManagerState × Option AudioBuffer × Option String :=
  match decode base64EncodedAudioString with
  | none => (onErrorHook st, none, some "InvalidCharacterError")
  | some bytes =>
      match decodeAudioDataE bytes DEFAULT_SAMPLE_RATE 1 with
      | Except.error e => (onErrorHook st, none, some e)
      | Except.ok audioBuffer => (st, some audioBuffer, none)

/-- `handleLiveError` in part_001, the onError callback the component
registers with the manager: it records the message and explicitly calls
the manager's stop() to clean up resources. -/
def handleLiveErrorHook : ManagerState → ManagerState := stopManager

/-! ## Combiner (handleDownloadCombined, src/unnamed/part_000). -/

/-- TypedArray.prototype.set: overwrite dst[offset ..] with src. -/
def setAt (dst : List ℚ) (src : List ℚ) (offset : ℕ) : List ℚ :=
  dst.take offset ++ src ++ dst.drop (offset + src.length)

/-- The concatenation loop of handleDownloadCombined: into a fresh zeroed
buffer of the summed length, copy each input's channel data at the running
offset, channel by channel, then advance the offset by the input's
length. -/
def copyChunks (numChannels : ℕ) : List AudioBuffer → AudioBuffer → ℕ →
    AudioBuffer
  | [], acc, _ => acc
  | buffer :: rest, acc, offset =>
      let acc1 : AudioBuffer :=
        { acc with
            channelData := (List.range numChannels).map fun channel =>
              if channel < buffer.numberOfChannels then
                setAt (acc.getChannelData channel)
                  (buffer.getChannelData channel) offset
              else acc.getChannelData channel }
      copyChunks numChannels rest acc1 (offset + buffer.length)

/-- handleDownloadCombined's combination step: one chunk is reused as is;
several are concatenated into a buffer allocated with the first input's
channel count and sample rate and the summed length. -/
def combineChunks (chunks : List AudioBuffer) : Option AudioBuffer :=
  match chunks with
  | [] => none
  | [b] => some b
  | b0 :: _ =>
      let totalLength := (chunks.map AudioBuffer.length).sum
      let concatenated :=
        createBuffer b0.numberOfChannels totalLength b0.sampleRate
      some (copyChunks b0.numberOfChannels chunks concatenated 0)

/-! ## Truncation bounds for the PCM round trip. -/

theorem abs_sub_truncQ_lt (q : ℚ) : |q - (truncQ q : ℚ)| < 1 := by
  unfold truncQ
  by_cases h : 0 ≤ q
  · rw [if_pos h, abs_of_nonneg (by
      have := Int.floor_le q
      linarith)]
    have := Int.sub_one_lt_floor q
    linarith
  · rw [if_neg h, abs_of_nonpos (by
      have := Int.le_ceil q
      linarith)]
    have := Int.ceil_lt_add_one q
    linarith

theorem truncQ_range {q : ℚ} (h1 : -32768 ≤ q) (h2 : q < 32768) :
    -32768 ≤ truncQ q ∧ truncQ q ≤ 32767 := by
  unfold truncQ
  by_cases h : 0 ≤ q
  · rw [if_pos h]
    constructor
    · have : (0 : ℤ) ≤ ⌊q⌋ := Int.floor_nonneg.mpr h
      omega
    · have : ⌊q⌋ < 32768 := by
        rw [Int.floor_lt]
        exact_mod_cast h2
      omega
  · rw [if_neg h]
    constructor
    · have : (-32768 : ℤ) ≤ ⌈q⌉ := by
        have hc := Int.le_ceil q
        have : (-32768 : ℚ) ≤ (⌈q⌉ : ℚ) := le_trans h1 hc
        exact_mod_cast this
      omega
    · have : ⌈q⌉ ≤ 0 := by
        rw [Int.ceil_le]
        push_cast
        linarith
      omega

/-! ## Claim C10: base64 round trip. -/

/-- C10: for every byte array b (bytes below 256, as in a Uint8Array),
decoding the base64 encoding of b reconstructs b exactly. -/
theorem c10_base64_roundtrip (bytes : List ℕ) (h : ∀ x ∈ bytes, x < 256) :
    decode (encode bytes) = some bytes :=
  decode_encode bytes h

/-- Witness for C10 at the concrete byte array [0, 127, 255, 1, 2]. -/
theorem c10_base64_roundtrip_witness :
    (∀ x ∈ [0, 127, 255, 1, 2], x < 256) ∧
      decode (encode [0, 127, 255, 1, 2]) = some [0, 127, 255, 1, 2] :=
  ⟨by decide, c10_base64_roundtrip [0, 127, 255, 1, 2] (by decide)⟩

/-! ## Claim C3: PCM encode/decode round trip. -/

/-- The float-sample list recovered by the C3 pipeline: createPcmBlob,
base64 decode of the payload, decodeAudioData at the TTS rate, mono. -/
def pcmRoundTrip (x : List ℚ) : Option (List ℚ) :=
  (decode (createPcmBlob x).1).map fun bytes =>
    (decodeAudioData bytes DEFAULT_SAMPLE_RATE 1).getChannelData 0

theorem getD_map_range {n i : ℕ} (f : ℕ → α) (d : α) (h : i < n) :
    (((List.range n).map f).getD i d) = f i := by
  rw [List.getD_eq_getElem?_getD, List.getElem?_map, List.getElem?_range h]
  rfl

/-- The samples produced by createPcmBlob, before serialization. -/
theorem createPcmBlob_int16 (x : List ℚ) :
    decode (createPcmBlob x).1 =
      some (int16ToBytes (x.map fun s => toInt16 (truncQ (s * 32768)))) := by
  unfold createPcmBlob
  exact decode_encode _ (int16ToBytes_lt _)

theorem pcmRoundTrip_eq (x : List ℚ) :
    pcmRoundTrip x =
      some ((List.range x.length).map fun i =>
        ((toInt16 (truncQ ((x.getD i 0) * 32768)) : ℤ) : ℚ) / 32768) := by
  unfold pcmRoundTrip
  rw [createPcmBlob_int16]
  simp only [Option.map_some, Option.map_some', Option.some.injEq]
  unfold decodeAudioData AudioBuffer.getChannelData
  rw [bytesToInt16_int16ToBytes _ (fun v hv => by
    simp only [List.mem_map] at hv
    obtain ⟨s, _, rfl⟩ := hv
    exact toInt16_range _)]
  simp only [List.length_map, Nat.div_one]
  rw [show List.range 1 = [0] from rfl]
  simp only [List.map_cons, List.map_nil, List.getD_cons_zero]
  apply List.map_congr_left
  intro i hi
  simp only [List.mem_range] at hi
  rw [Nat.mul_one, Nat.add_zero, List.getD_eq_getElem?_getD,
    List.getElem?_map, List.getElem?_eq_getElem hi]
  simp only [Option.map_some, Option.map_some', Option.getD_some]
  rw [List.getD_eq_getElem?_getD, List.getElem?_eq_getElem hi]
  rfl

/-- C3, amended: the round trip is within 1/32768 of the input for samples
in [-1, 1); the right endpoint +1.0 is excluded, where the Int16Array
write wraps 32768 to -32768 (see the counterexample). -/
theorem c3_pcm_roundtrip (x : List ℚ) (_hne : x ≠ [])
    (hb : ∀ s ∈ x, -1 ≤ s ∧ s < 1) :
    ∃ out, pcmRoundTrip x = some out ∧ out.length = x.length ∧
      ∀ i < x.length, |out.getD i 0 - x.getD i 0| ≤ 1 / 32768 := by
  refine ⟨_, pcmRoundTrip_eq x, by simp, ?_⟩
  intro i hi
  rw [getD_map_range _ _ hi]
  have hmem : x.getD i 0 ∈ x := by
    rw [List.getD_eq_getElem?_getD, List.getElem?_eq_getElem hi]
    exact List.getElem_mem hi
  obtain ⟨hlo, hhi⟩ := hb _ hmem
  set s := x.getD i 0 with hs
  have hrange : -32768 ≤ truncQ (s * 32768) ∧ truncQ (s * 32768) ≤ 32767 :=
    truncQ_range (by linarith) (by linarith)
  rw [toInt16_eq_self hrange.1 hrange.2]
  have htr := abs_sub_truncQ_lt (s * 32768)
  rw [show ((truncQ (s * 32768) : ℤ) : ℚ) / 32768 - s =
      -((s * 32768 - (truncQ (s * 32768) : ℤ)) / 32768) from by ring,
    abs_neg, abs_div, abs_of_pos (by norm_num : (0 : ℚ) < 32768)]
  rw [div_le_div_iff₀ (by norm_num) (by norm_num)]
  linarith

/-- Witness for C3 at x = [1/2, -1/2, 0]. -/
theorem c3_pcm_roundtrip_witness :
    (([(1 : ℚ)/2, -(1 : ℚ)/2, 0] ≠ [] ∧
        ∀ s ∈ [(1 : ℚ)/2, -(1 : ℚ)/2, 0], -1 ≤ s ∧ s < 1)) ∧
      ∃ out, pcmRoundTrip [(1 : ℚ)/2, -(1 : ℚ)/2, 0] = some out ∧
        out.length = 3 ∧
        ∀ i < 3, |out.getD i 0 - [(1 : ℚ)/2, -(1 : ℚ)/2, 0].getD i 0| ≤ 1 / 32768 :=
  ⟨⟨by decide, by norm_num⟩,
    c3_pcm_roundtrip [(1 : ℚ)/2, -(1 : ℚ)/2, 0] (by decide) (by norm_num)⟩

/-- Counterexample to C3 as stated: at the admissible sample +1.0 the
Int16Array conversion wraps 32768 to -32768 and the round-tripped sample
is -1, an absolute error of 2 > 1/32768. -/
theorem c3_counterexample :
    pcmRoundTrip [(1 : ℚ)] = some [-1] ∧
      ¬ |(-1 : ℚ) - 1| ≤ 1 / 32768 := by
  constructor
  · rw [pcmRoundTrip_eq]
    have h1 : truncQ ((1 : ℚ) * 32768) = 32768 := by
      unfold truncQ
      rw [if_pos (by norm_num),
        show ((1 : ℚ) * 32768) = ((32768 : ℤ) : ℚ) by norm_num,
        Int.floor_intCast]
    have h2 : toInt16 32768 = -32768 := by
      unfold toInt16
      decide
    rw [show List.range (List.length [(1 : ℚ)]) = [0] from rfl]
    simp only [List.map_cons, List.map_nil, List.getD_cons_zero]
    rw [h1, h2]
    norm_num
  · rw [abs_of_nonpos (by norm_num)]
    norm_num

/-! ## Claim C4: WAV serialization layout. -/

theorem uint16_lt (v : ℤ) : uint16 v < 65536 := by
  unfold uint16
  omega

theorem getD_drop_add (l : List ℕ) (k j : ℕ) :
    l.getD (k + j) 0 = (l.drop k).getD j 0 := by
  rw [List.getD_eq_getElem?_getD, List.getD_eq_getElem?_getD,
    List.getElem?_drop]

theorem readU32_of_drop (l tail : List ℕ) (k n : ℕ) (hn : n < 4294967296)
    (h : l.drop k = u32le n ++ tail) : readU32 l k = n := by
  unfold readU32
  have g0 : l.getD k 0 = n % 256 := by
    have := getD_drop_add l k 0
    rw [Nat.add_zero] at this
    rw [this, h]
    rfl
  have g1 : l.getD (k + 1) 0 = n / 256 % 256 := by
    rw [getD_drop_add l k 1, h]
    rfl
  have g2 : l.getD (k + 2) 0 = n / 65536 % 256 := by
    rw [getD_drop_add l k 2, h]
    rfl
  have g3 : l.getD (k + 3) 0 = n / 16777216 % 256 := by
    rw [getD_drop_add l k 3, h]
    rfl
  rw [g0, g1, g2, g3]
  omega

theorem readU16_of_drop (l tail : List ℕ) (k n : ℕ) (hn : n < 65536)
    (h : l.drop k = u16le n ++ tail) : readU16 l k = n := by
  unfold readU16
  have g0 : l.getD k 0 = n % 256 := by
    have := getD_drop_add l k 0
    rw [Nat.add_zero] at this
    rw [this, h]
    rfl
  have g1 : l.getD (k + 1) 0 = n / 256 % 256 := by
    rw [getD_drop_add l k 1, h]
    rfl
  rw [g0, g1]
  omega

theorem interleave_length (b : AudioBuffer) :
    (interleave b).length = b.length * b.numberOfChannels := by
  unfold interleave
  rw [List.length_flatMap]
  rw [show (List.map
      (List.length ∘ fun i =>
        (List.range b.numberOfChannels).map fun channel =>
          (b.getChannelData channel).getD i 0)
      (List.range b.length)) =
      List.replicate b.length b.numberOfChannels from by
    rw [List.eq_replicate_iff]
    constructor
    · simp
    · intro m hm
      simp only [List.mem_map, Function.comp] at hm
      obtain ⟨i, _, rfl⟩ := hm
      simp]
  rw [List.sum_replicate, smul_eq_mul]

theorem flatMap_i16le_length (q : List ℚ) :
    (q.flatMap fun s => i16le (pcmSample s)).length = 2 * q.length := by
  induction q with
  | nil => rfl
  | cons a t ih =>
      rw [List.flatMap_cons, List.length_append, ih,
        show (i16le (pcmSample a)).length = 2 from rfl, List.length_cons]
      omega

theorem readU16_flatMap (q : List ℚ) : ∀ i < q.length,
    readU16 (q.flatMap fun s => i16le (pcmSample s)) (2 * i) =
      uint16 (pcmSample (q.getD i 0)) := by
  induction q with
  | nil =>
      intro i hi
      exact absurd hi (by simp)
  | cons a t ih =>
      intro i hi
      cases i with
      | zero =>
          have hu := uint16_lt (pcmSample a)
          rw [Nat.mul_zero, List.flatMap_cons,
            show i16le (pcmSample a) =
              [uint16 (pcmSample a) % 256,
               uint16 (pcmSample a) / 256 % 256] from rfl]
          unfold readU16
          simp only [List.cons_append, List.nil_append, List.getD_cons_zero,
            List.getD_cons_succ]
          omega
      | succ j =>
          have e : 2 * (j + 1) = 2 * j + 1 + 1 := by omega
          rw [e, List.flatMap_cons,
            show i16le (pcmSample a) =
              [uint16 (pcmSample a) % 256,
               uint16 (pcmSample a) / 256 % 256] from rfl]
          unfold readU16
          simp only [List.cons_append, List.nil_append, List.getD_cons_succ]
          have hih := ih j (by simpa using hi)
          unfold readU16 at hih
          exact hih

set_option maxHeartbeats 2000000 in
/-- C4: audioBufferToWavBlob produces exactly 44 + sampleCount*channels*2
bytes; the byteRate, blockAlign, bitsPerSample and dataSize header fields
hold the claimed formulas; the payload after byte 44 is the interleaved
little-endian 16-bit samples with each source sample clamped to [-1, 1]
and scaled by 32768 when negative and 32767 when non-negative. -/
theorem c4_wav_layout (b : AudioBuffer)
    (h1 : b.sampleRate * b.numberOfChannels * 2 < 4294967296)
    (h2 : b.length * b.numberOfChannels * 2 < 4294967296)
    (h3 : b.numberOfChannels * 2 < 65536) :
    (audioBufferToWavBlob b).length =
        44 + b.length * b.numberOfChannels * 2 ∧
      readU32 (audioBufferToWavBlob b) 28 =
        b.sampleRate * b.numberOfChannels * 2 ∧
      readU16 (audioBufferToWavBlob b) 32 = b.numberOfChannels * 2 ∧
      readU16 (audioBufferToWavBlob b) 34 = 16 ∧
      readU32 (audioBufferToWavBlob b) 40 =
        b.length * b.numberOfChannels * 2 ∧
      (audioBufferToWavBlob b).drop 44 =
        (interleave b).flatMap (fun s => i16le (pcmSample s)) ∧
      ∀ i < b.length * b.numberOfChannels,
        readI16 (audioBufferToWavBlob b) (44 + 2 * i) =
          pcmSample ((interleave b).getD i 0) := by
  have hdrop44 : (audioBufferToWavBlob b).drop 44 =
      (interleave b).flatMap fun s => i16le (pcmSample s) := rfl
  refine ⟨?_, ?_, ?_, ?_, ?_, hdrop44, ?_⟩
  · show (wavHeader b.numberOfChannels b.length b.sampleRate ++
        (interleave b).flatMap fun s => i16le (pcmSample s)).length = _
    rw [List.length_append, flatMap_i16le_length, interleave_length]
    rw [show (wavHeader b.numberOfChannels b.length b.sampleRate).length =
      44 from rfl]
    ring
  · exact readU32_of_drop _ ((audioBufferToWavBlob b).drop 32) _ _ h1 rfl
  · exact readU16_of_drop _ ((audioBufferToWavBlob b).drop 34) _ _ h3 rfl
  · exact readU16_of_drop _ ((audioBufferToWavBlob b).drop 36) _ _
      (by omega) rfl
  · exact readU32_of_drop _ ((audioBufferToWavBlob b).drop 44) _ _ h2 rfl
  · intro i hi
    unfold readI16
    have hlen : i < (interleave b).length := by
      rw [interleave_length]
      exact hi
    have g : readU16 (audioBufferToWavBlob b) (44 + 2 * i) =
        readU16 ((interleave b).flatMap fun s => i16le (pcmSample s))
          (2 * i) := by
      unfold readU16
      rw [show 44 + 2 * i + 1 = 44 + (2 * i + 1) from by omega,
        getD_drop_add _ 44 (2 * i + 1), getD_drop_add _ 44 (2 * i),
        hdrop44]
    rw [g, readU16_flatMap _ i hlen]
    exact toSigned16_uint16 (toInt16_range _).1 (toInt16_range _).2

/-- Witness for C4 at the example of the claim: a 2-channel, 24000 Hz,
100-sample buffer (byteRate 96000, blockAlign 4, dataSize 400). -/
theorem c4_wav_layout_witness :
    (24000 * 2 * 2 < 4294967296 ∧ 100 * 2 * 2 < 4294967296 ∧
        2 * 2 < 65536) ∧
      ((audioBufferToWavBlob (createBuffer 2 100 24000)).length =
          44 + 100 * 2 * 2 ∧
        readU32 (audioBufferToWavBlob (createBuffer 2 100 24000)) 28 =
          96000 ∧
        readU16 (audioBufferToWavBlob (createBuffer 2 100 24000)) 32 = 4 ∧
        readU16 (audioBufferToWavBlob (createBuffer 2 100 24000)) 34 =
          16 ∧
        readU32 (audioBufferToWavBlob (createBuffer 2 100 24000)) 40 =
          400) := by
  have h := c4_wav_layout (createBuffer 2 100 24000)
    (by decide) (by decide) (by decide)
  refine ⟨by decide, h.1, ?_, h.2.2.1, h.2.2.2.1, ?_⟩
  · have := h.2.1
    simpa using this
  · have := h.2.2.2.2.1
    simpa using this

/-! ## Claim C5: gapless streaming playback. -/

theorem duration_nonneg (b : AudioBuffer) : 0 ≤ b.duration :=
  div_nonneg (Nat.cast_nonneg _) (Nat.cast_nonneg _)

/-- C5: a dequeued buffer is scheduled at max(lastScheduledEndTime,
currentClockTime) and the end-time cursor advances by its duration; hence
two buffers dequeued with no clock advance between the scheduler calls are
scheduled back to back: the second starts exactly at the first's start
plus the first's duration, even when the clock sits mid-playback of the
first (currentTime below the cursor). -/
theorem c5_gapless_scheduling (st : SchedState) (now : ℚ)
    (b1 b2 : AudioBuffer) (rest : List AudioBuffer)
    (hq : st.audioQueue = b1 :: b2 :: rest)
    (hact : st.isLiveActive = true) :
    ∃ st1 st2 s1 s2,
      playQueuedAudio now st = (st1, some (s1, b1)) ∧
      playQueuedAudio now st1 = (st2, some (s2, b2)) ∧
      s1 = max st.nextStartTime now ∧
      st1.nextStartTime = s1 + b1.duration ∧
      s2 = s1 + b1.duration := by
  have hd : 0 ≤ b1.duration := duration_nonneg b1
  have hnow : now ≤ max st.nextStartTime now := le_max_right _ _
  have hmax : max (max st.nextStartTime now + b1.duration) now =
      max st.nextStartTime now + b1.duration :=
    max_eq_left (by linarith)
  refine ⟨⟨b2 :: rest, max st.nextStartTime now + b1.duration,
      st.activeSourceCount + 1, st.isLiveActive⟩,
    ⟨rest,
      max st.nextStartTime now + b1.duration + b2.duration,
      st.activeSourceCount + 2, st.isLiveActive⟩,
    max st.nextStartTime now,
    max st.nextStartTime now + b1.duration,
    ?_, ?_, rfl, rfl, rfl⟩
  · unfold playQueuedAudio
    rw [hq]
    dsimp only
    rw [if_neg (by rw [hact]; simp)]
  · unfold playQueuedAudio
    dsimp only
    rw [if_neg (by rw [hact]; simp), hmax]

/-- Witness for C5: two one-second buffers queued while the clock is
mid-playback of the first (cursor at 5, clock at 3). -/
theorem c5_gapless_scheduling_witness :
    ((SchedState.mk
        [AudioBuffer.mk 8 [[1, 1, 1, 1, 1, 1, 1, 1]],
         AudioBuffer.mk 8 [[2, 2, 2, 2, 2, 2, 2, 2]]] 5 1 true).audioQueue =
      AudioBuffer.mk 8 [[1, 1, 1, 1, 1, 1, 1, 1]] ::
        AudioBuffer.mk 8 [[2, 2, 2, 2, 2, 2, 2, 2]] :: [] ∧
      (SchedState.mk
        [AudioBuffer.mk 8 [[1, 1, 1, 1, 1, 1, 1, 1]],
         AudioBuffer.mk 8 [[2, 2, 2, 2, 2, 2, 2, 2]]] 5 1
        true).isLiveActive = true) ∧
      ∃ st1 st2 s1 s2,
        playQueuedAudio 3 (SchedState.mk
          [AudioBuffer.mk 8 [[1, 1, 1, 1, 1, 1, 1, 1]],
           AudioBuffer.mk 8 [[2, 2, 2, 2, 2, 2, 2, 2]]] 5 1 true) =
            (st1, some (s1, AudioBuffer.mk 8 [[1, 1, 1, 1, 1, 1, 1, 1]])) ∧
          playQueuedAudio 3 st1 =
            (st2, some (s2, AudioBuffer.mk 8 [[2, 2, 2, 2, 2, 2, 2, 2]])) ∧
          s1 = max 5 3 ∧
          s1 = max (SchedState.mk
            [AudioBuffer.mk 8 [[1, 1, 1, 1, 1, 1, 1, 1]],
             AudioBuffer.mk 8 [[2, 2, 2, 2, 2, 2, 2, 2]]] 5 1
            true).nextStartTime 3 ∧
          st1.nextStartTime =
            s1 + (AudioBuffer.mk 8 [[1, 1, 1, 1, 1, 1, 1, 1]]).duration ∧
          s2 = s1 + (AudioBuffer.mk 8 [[1, 1, 1, 1, 1, 1, 1, 1]]).duration := by
  refine ⟨⟨rfl, rfl⟩, ?_⟩
  obtain ⟨st1, st2, s1, s2, h1, h2, h3, h4, h5⟩ :=
    c5_gapless_scheduling
      (SchedState.mk
        [AudioBuffer.mk 8 [[1, 1, 1, 1, 1, 1, 1, 1]],
         AudioBuffer.mk 8 [[2, 2, 2, 2, 2, 2, 2, 2]]] 5 1 true) 3
      (AudioBuffer.mk 8 [[1, 1, 1, 1, 1, 1, 1, 1]])
      (AudioBuffer.mk 8 [[2, 2, 2, 2, 2, 2, 2, 2]]) [] rfl rfl
  exact ⟨st1, st2, s1, s2, h1, h2, h3, h3, h4, h5⟩

/-! ## Claim C6: progress reporting. -/

theorem segmentResolutionTrace_map_fst (n : ℕ) (order : List ℕ) :
    ∀ c, (segmentResolutionTrace n order c).map Prod.fst =
      List.range' (c + 1) order.length := by
  induction order with
  | nil =>
      intro c
      rfl
  | cons a t ih =>
      intro c
      simp only [segmentResolutionTrace, List.map_cons, List.length_cons,
        List.range'_succ, ih (c + 1)]

theorem segmentResolutionTrace_snd (n : ℕ) (order : List ℕ) :
    ∀ c, ∀ p ∈ segmentResolutionTrace n order c, p.2 = n := by
  induction order with
  | nil =>
      intro c p hp
      exact absurd hp (by simp [segmentResolutionTrace])
  | cons a t ih =>
      intro c p hp
      simp only [segmentResolutionTrace, List.mem_cons] at hp
      rcases hp with rfl | hp
      · rfl
      · exact ih (c + 1) p hp

/-- C6, amended: for a batch of N segments the progress callback is
invoked exactly N + 1 times (one initial report of 0, then one report per
resolved segment, whatever the completion order); the first arguments are
exactly 0, 1, ..., N in order — strictly increasing, reaching N exactly at
the final invocation, once all segments have resolved — and every second
argument is N. -/
theorem c6_progress (n : ℕ) (order : List ℕ) (h : order.length = n) :
    (progressTrace n order).length = n + 1 ∧
      (progressTrace n order).map Prod.fst = List.range (n + 1) ∧
      ∀ p ∈ progressTrace n order, p.2 = n := by
  have hmap : (progressTrace n order).map Prod.fst = List.range (n + 1) := by
    unfold progressTrace
    rw [List.map_cons, segmentResolutionTrace_map_fst n order 0, h,
      List.range_eq_range', List.range'_succ]
  refine ⟨?_, hmap, ?_⟩
  · have := congrArg List.length hmap
    simpa using this
  · intro p hp
    unfold progressTrace at hp
    simp only [List.mem_cons] at hp
    rcases hp with rfl | hp
    · rfl
    · exact segmentResolutionTrace_snd n order 0 p hp

/-- Witness for C6 at N = 5 with completion order [2, 0, 1, 3, 4]. -/
theorem c6_progress_witness :
    ([2, 0, 1, 3, 4].length = 5) ∧
      ((progressTrace 5 [2, 0, 1, 3, 4]).length = 5 + 1 ∧
        (progressTrace 5 [2, 0, 1, 3, 4]).map Prod.fst = List.range 6 ∧
        ∀ p ∈ progressTrace 5 [2, 0, 1, 3, 4], p.2 = 5) :=
  ⟨by decide, c6_progress 5 [2, 0, 1, 3, 4] (by decide)⟩

/-- Counterexample to C6 as stated: with N = 5 segments the callback is
invoked 6 times, not 5 — the initial (0, 5) report precedes the five
per-segment reports. -/
theorem c6_counterexample :
    ¬ (progressTrace 5 [0, 1, 2, 3, 4]).length = 5 := by decide

/-! ## Claim C7: turn-complete sealing. -/

/-- C7: a turn-complete event empties both transcript accumulators, emits
exactly the updated turn history, and that history is the previous history
extended with at most two sealed records: one per non-empty accumulator,
the user record (sealed input) before the model record (sealed output). -/
theorem c7_turn_complete (uuidU uuidM : String) (st : ManagerState) :
    (handleTurnComplete uuidU uuidM st).1.currentInputTranscription = "" ∧
      (handleTurnComplete uuidU uuidM st).1.currentOutputTranscription =
        "" ∧
      (handleTurnComplete uuidU uuidM st).2 =
        (handleTurnComplete uuidU uuidM st).1.accumulatedTurns ∧
      (handleTurnComplete uuidU uuidM st).2 =
        st.accumulatedTurns ++
          ((if st.currentInputTranscription ≠ "" then
              [LiveSpeakerTurn.mk uuidU Speaker.user
                st.currentInputTranscription]
            else []) ++
            (if st.currentOutputTranscription ≠ "" then
              [LiveSpeakerTurn.mk uuidM Speaker.model
                st.currentOutputTranscription]
            else [])) ∧
      ((if st.currentInputTranscription ≠ "" then
          [LiveSpeakerTurn.mk uuidU Speaker.user
            st.currentInputTranscription]
        else []) ++
        (if st.currentOutputTranscription ≠ "" then
          [LiveSpeakerTurn.mk uuidM Speaker.model
            st.currentOutputTranscription]
        else [])).length ≤ 2 := by
  unfold handleTurnComplete
  refine ⟨rfl, rfl, rfl, ?_, ?_⟩
  · by_cases hin : st.currentInputTranscription = "" <;>
      by_cases hout : st.currentOutputTranscription = "" <;>
        simp [hin, hout, List.append_assoc]
  · by_cases hin : st.currentInputTranscription = "" <;>
      by_cases hout : st.currentOutputTranscription = "" <;>
        simp [hin, hout]

/-! ## Claim C8: decode error in the live path. -/

/-- C8: when an inbound live-session audio payload fails to decode
(malformed base64, or a byte payload an Int16Array cannot view), the
handler reports the error through the registered onError callback — which
in the live path is the component's handleLiveError, whose hook runs the
manager's stop() — so the microphone stream and the processing node are
released. -/
theorem c8_decode_error_stops (st : ManagerState) (payload : List Char)
    (h : decode payload = none ∨
      ∃ bytes, decode payload = some bytes ∧ bytes.length % 2 = 1) :
    ∃ e, handleInlineAudio handleLiveErrorHook st payload =
        (stopManager st, none, some e) ∧
      (handleInlineAudio handleLiveErrorHook st payload).1.mediaStream =
        false ∧
      (handleInlineAudio handleLiveErrorHook st
        payload).1.scriptProcessorNode = false := by
  unfold handleInlineAudio handleLiveErrorHook
  rcases h with h | ⟨bytes, h, hodd⟩
  · rw [h]
    exact ⟨_, rfl, rfl, rfl⟩
  · rw [h]
    dsimp only
    unfold decodeAudioDataE
    rw [if_neg (by omega)]
    exact ⟨_, rfl, rfl, rfl⟩

/-- Witness for C8 on the malformed base64 payload "!". -/
theorem c8_decode_error_stops_witness :
    (decode ['!'] = none ∨
        ∃ bytes, decode ['!'] = some bytes ∧ bytes.length % 2 = 1) ∧
      ∃ e, handleInlineAudio handleLiveErrorHook
          (ManagerState.mk true true true "hi" "yo" []) ['!'] =
          (stopManager (ManagerState.mk true true true "hi" "yo" []),
            none, some e) ∧
        (handleInlineAudio handleLiveErrorHook
          (ManagerState.mk true true true "hi" "yo" []) ['!']).1.mediaStream =
          false ∧
        (handleInlineAudio handleLiveErrorHook
          (ManagerState.mk true true true "hi" "yo" [])
          ['!']).1.scriptProcessorNode = false :=
  ⟨Or.inl (by decide),
    c8_decode_error_stops (ManagerState.mk true true true "hi" "yo" []) ['!']
      (Or.inl (by decide))⟩

/-! ## Claim C2: fail-fast batch. -/

theorem promiseAll_error {α : Type} {es : List (Except String α)}
    (h : ∃ x ∈ es, ∃ e, x = Except.error e) :
    ∃ e, promiseAll es = Except.error e := by
  induction es with
  | nil =>
      obtain ⟨x, hx, _⟩ := h
      exact absurd hx (by simp)
  | cons a t ih =>
      obtain ⟨x, hx, e, hxe⟩ := h
      rcases List.mem_cons.mp hx with rfl | hxt
      · subst hxe
        exact ⟨e, rfl⟩
      · cases a with
        | error e0 => exact ⟨e0, rfl⟩
        | ok v =>
            obtain ⟨e1, he1⟩ := ih ⟨x, hxt, e, hxe⟩
            refine ⟨e1, ?_⟩
            unfold promiseAll
            rw [he1]
            rfl

theorem taggedResults_getElem (segs : List String)
    (api : ℕ → Except String (Option (List Char))) (uuid : ℕ → String)
    (i : ℕ) (hi : i < segs.length) :
    (taggedResults segs api uuid).getD i (Except.error "") =
      segResultE api uuid i (segs.getD i "") := by
  unfold taggedResults
  rw [List.getD_eq_getElem?_getD, List.getElem?_map]
  rw [List.getElem?_eq_getElem (by simpa using hi)]
  rw [List.getElem_enum]
  rw [List.getD_eq_getElem?_getD, List.getElem?_eq_getElem hi]
  rfl

/-- C2: if any single segment with speakable text has a failing synthesis
call, generateSpeech propagates an error and returns no partial chunk
list. -/
theorem c2_fail_fast (segs : List String)
    (api : ℕ → Except String (Option (List Char))) (uuid : ℕ → String)
    (i : ℕ) (e : String) (hi : i < segs.length)
    (hne : jsTrim (segs.getD i "") ≠ "") (herr : api i = Except.error e) :
    ∃ e1, generateSpeechE segs api uuid = Except.error e1 := by
  have hel : segResultE api uuid i (segs.getD i "") = Except.error e := by
    unfold segResultE
    rw [if_neg hne, herr]
  have hmem : Except.error e ∈ taggedResults segs api uuid := by
    have hlen : i < (taggedResults segs api uuid).length := by
      unfold taggedResults
      simpa using hi
    have := taggedResults_getElem segs api uuid i hi
    rw [hel] at this
    rw [List.getD_eq_getElem?_getD, List.getElem?_eq_getElem hlen] at this
    simp only [Option.getD_some] at this
    rw [← this]
    exact List.getElem_mem hlen
  obtain ⟨e1, he1⟩ := promiseAll_error ⟨_, hmem, e, rfl⟩
  refine ⟨e1, ?_⟩
  unfold generateSpeechE
  rw [he1]

/-- Witness for C2: a single segment whose call rejects. -/
theorem c2_fail_fast_witness :
    (0 < ["boom"].length ∧ jsTrim (["boom"].getD 0 "") ≠ "" ∧
        (fun _ : ℕ => (Except.error "fail" : Except String
          (Option (List Char)))) 0 = Except.error "fail") ∧
      ∃ e1, generateSpeechE ["boom"]
          (fun _ => Except.error "fail") (fun _ => "id") =
        Except.error e1 :=
  ⟨⟨by decide, by decide, rfl⟩,
    c2_fail_fast ["boom"] (fun _ => Except.error "fail") (fun _ => "id")
      0 "fail" (by decide) (by decide) rfl⟩

/-! ## Claim C1: order preservation under any completion order. -/

theorem promiseAll_ok {α : Type} {es : List (Except String α)} {l : List α}
    (h : promiseAll es = Except.ok l) : es = l.map Except.ok := by
  induction es generalizing l with
  | nil =>
      unfold promiseAll at h
      simp only [Except.ok.injEq] at h
      rw [← h]
      rfl
  | cons a t ih =>
      cases a with
      | error e =>
          exact absurd h (by simp [promiseAll])
      | ok v =>
          unfold promiseAll at h
          cases hpt : promiseAll t with
          | error e =>
              rw [hpt] at h
              exact absurd h (by simp [Except.map])
          | ok l2 =>
              rw [hpt] at h
              simp only [Except.map, Except.ok.injEq] at h
              rw [← h, List.map_cons, ← ih hpt]

theorem segResultE_ok_fst (api : ℕ → Except String (Option (List Char)))
    (uuid : ℕ → String) (i : ℕ) (s : String)
    (p : ℕ × Option GeneratedAudioChunk)
    (h : segResultE api uuid i s = Except.ok p) : p.1 = i := by
  unfold segResultE at h
  by_cases htrim : jsTrim s = ""
  · rw [if_pos htrim] at h
    simp only [Except.ok.injEq] at h
    rw [← h]
  · rw [if_neg htrim] at h
    cases hapi : api i with
    | error e =>
        rw [hapi] at h
        exact absurd h (by simp)
    | ok o =>
        rw [hapi] at h
        cases o with
        | none =>
            simp only [Except.ok.injEq] at h
            rw [← h]
        | some b64 =>
            dsimp only at h
            cases hdec : decode b64 with
            | none =>
                rw [hdec] at h
                exact absurd h (by simp)
            | some bytes =>
                rw [hdec] at h
                dsimp only at h
                unfold decodeAudioDataE at h
                by_cases hev : bytes.length % 2 = 0
                · rw [if_pos hev] at h
                  simp only [Except.ok.injEq] at h
                  rw [← h]
                · rw [if_neg hev] at h
                  exact absurd h (by simp)

theorem promiseAll_tagged_keys (segs : List String)
    (api : ℕ → Except String (Option (List Char))) (uuid : ℕ → String)
    (L : List (ℕ × Option GeneratedAudioChunk))
    (hok : promiseAll (taggedResults segs api uuid) = Except.ok L) :
    L.map Prod.fst = List.range L.length := by
  have hmap := promiseAll_ok hok
  have hlen : L.length = segs.length := by
    have := congrArg List.length hmap
    unfold taggedResults at this
    simpa using this.symm
  apply List.ext_getElem
  · simp
  · intro k h1 h2
    rw [List.getElem_map, List.getElem_range]
    have hklen : k < L.length := by simpa using h1
    have hk : k < segs.length := by
      rw [← hlen]
      exact hklen
    have hgd : (L.map Except.ok).getD k (Except.error "") =
        segResultE api uuid k (segs.getD k "") := by
      rw [← hmap]
      exact taggedResults_getElem segs api uuid k hk
    rw [List.getD_eq_getElem?_getD, List.getElem?_map,
      List.getElem?_eq_getElem hklen] at hgd
    simp only [Option.map_some, Option.map_some', Option.getD_some] at hgd
    exact segResultE_ok_fst api uuid k (segs.getD k "") _ hgd.symm

theorem filterMap_ok_proj (L : List (ℕ × Option GeneratedAudioChunk)) :
    (L.map Except.ok).filterMap okChunk = L.filterMap fun r => r.2 := by
  induction L with
  | nil => rfl
  | cons a t ih =>
      obtain ⟨i, o⟩ := a
      cases o <;> simp [List.filterMap_cons, okChunk, ih]

theorem filter_isSome_filterMap
    (l : List (ℕ × Option GeneratedAudioChunk)) :
    ((l.filter fun r => r.2.isSome).filterMap fun r => r.2) =
      l.filterMap fun r => r.2 := by
  induction l with
  | nil => rfl
  | cons a t ih =>
      obtain ⟨i, o⟩ := a
      cases o <;> simp [List.filter_cons, List.filterMap_cons, ih]

/-- C1: whatever order the in-flight synthesis calls complete in — any
permutation R of the resolved, index-tagged results — filtering out null
chunks, sorting by original index and projecting yields the chunks in the
segments' original script order. -/
theorem c1_order_preserved (segs : List String)
    (api : ℕ → Except String (Option (List Char))) (uuid : ℕ → String)
    (L R : List (ℕ × Option GeneratedAudioChunk))
    (hok : promiseAll (taggedResults segs api uuid) = Except.ok L)
    (hperm : R.Perm L) :
    reorderResults R = inOrderChunks segs api uuid := by
  have hkeys := promiseAll_tagged_keys segs api uuid L hok
  have hLsorted : L.Pairwise idxLT := by
    have h1 : (L.map Prod.fst).Pairwise (· < ·) := by
      rw [hkeys]
      exact List.pairwise_lt_range _
    exact (List.pairwise_map (f := Prod.fst)).mp h1
  have hfilterSorted : (L.filter fun r => r.2.isSome).Pairwise idxLT :=
    hLsorted.filter _
  have hS_perm : ((R.filter fun r => r.2.isSome).insertionSort
      idxLE).Perm (L.filter fun r => r.2.isSome) :=
    (List.perm_insertionSort idxLE _).trans (hperm.filter _)
  have hS_sorted_le : ((R.filter fun r => r.2.isSome).insertionSort
      idxLE).Sorted idxLE :=
    List.sorted_insertionSort idxLE _
  have hfilter_nodup :
      ((L.filter fun r => r.2.isSome).map Prod.fst).Nodup := by
    have h2 : (L.filter fun r => r.2.isSome).Pairwise
        fun a b => a.1 ≠ b.1 :=
      hfilterSorted.imp fun h => Nat.ne_of_lt h
    exact (List.pairwise_map (f := Prod.fst)).mpr h2
  have hS_nodup : (((R.filter fun r => r.2.isSome).insertionSort
      idxLE).map Prod.fst).Nodup :=
    (hS_perm.map Prod.fst).nodup_iff.mpr hfilter_nodup
  have hS_sorted_lt : ((R.filter fun r => r.2.isSome).insertionSort
      idxLE).Sorted idxLT := by
    have hne : ((R.filter fun r => r.2.isSome).insertionSort
        idxLE).Pairwise fun a b => a.1 ≠ b.1 :=
      (List.pairwise_map (f := Prod.fst)).mp hS_nodup
    exact (List.Pairwise.and hS_sorted_le hne).imp
      fun h => lt_of_le_of_ne h.1 h.2
  have heq : (R.filter fun r => r.2.isSome).insertionSort idxLE =
      L.filter fun r => r.2.isSome :=
    List.eq_of_perm_of_sorted hS_perm hS_sorted_lt hfilterSorted
  unfold reorderResults
  rw [heq, filter_isSome_filterMap]
  unfold inOrderChunks
  rw [promiseAll_ok hok, filterMap_ok_proj]

/-- Witness for C1: five segments, every call returning the payload AAA=
(two zero bytes), with segment 2 completing before segment 1. -/
theorem c1_order_preserved_witness :
    (promiseAll (taggedResults ["a", "b", "c", "d", "e"]
          (fun _ => Except.ok (some ['A', 'A', 'A', '='])) (fun _ => "id")) =
        Except.ok
          [(0, some (GeneratedAudioChunk.mk "id" "a" (AudioBuffer.mk 24000 [[(((0 : ℤ) : ℚ) / 32768)]]))), (1, some (GeneratedAudioChunk.mk "id" "b" (AudioBuffer.mk 24000 [[(((0 : ℤ) : ℚ) / 32768)]]))), (2, some (GeneratedAudioChunk.mk "id" "c" (AudioBuffer.mk 24000 [[(((0 : ℤ) : ℚ) / 32768)]]))), (3, some (GeneratedAudioChunk.mk "id" "d" (AudioBuffer.mk 24000 [[(((0 : ℤ) : ℚ) / 32768)]]))), (4, some (GeneratedAudioChunk.mk "id" "e" (AudioBuffer.mk 24000 [[(((0 : ℤ) : ℚ) / 32768)]])))] ∧
      List.Perm
        [(1, some (GeneratedAudioChunk.mk "id" "b" (AudioBuffer.mk 24000 [[(((0 : ℤ) : ℚ) / 32768)]]))), (0, some (GeneratedAudioChunk.mk "id" "a" (AudioBuffer.mk 24000 [[(((0 : ℤ) : ℚ) / 32768)]]))), (2, some (GeneratedAudioChunk.mk "id" "c" (AudioBuffer.mk 24000 [[(((0 : ℤ) : ℚ) / 32768)]]))), (3, some (GeneratedAudioChunk.mk "id" "d" (AudioBuffer.mk 24000 [[(((0 : ℤ) : ℚ) / 32768)]]))), (4, some (GeneratedAudioChunk.mk "id" "e" (AudioBuffer.mk 24000 [[(((0 : ℤ) : ℚ) / 32768)]])))]
        [(0, some (GeneratedAudioChunk.mk "id" "a" (AudioBuffer.mk 24000 [[(((0 : ℤ) : ℚ) / 32768)]]))), (1, some (GeneratedAudioChunk.mk "id" "b" (AudioBuffer.mk 24000 [[(((0 : ℤ) : ℚ) / 32768)]]))), (2, some (GeneratedAudioChunk.mk "id" "c" (AudioBuffer.mk 24000 [[(((0 : ℤ) : ℚ) / 32768)]]))), (3, some (GeneratedAudioChunk.mk "id" "d" (AudioBuffer.mk 24000 [[(((0 : ℤ) : ℚ) / 32768)]]))), (4, some (GeneratedAudioChunk.mk "id" "e" (AudioBuffer.mk 24000 [[(((0 : ℤ) : ℚ) / 32768)]])))]) ∧
      reorderResults
          [(1, some (GeneratedAudioChunk.mk "id" "b" (AudioBuffer.mk 24000 [[(((0 : ℤ) : ℚ) / 32768)]]))), (0, some (GeneratedAudioChunk.mk "id" "a" (AudioBuffer.mk 24000 [[(((0 : ℤ) : ℚ) / 32768)]]))), (2, some (GeneratedAudioChunk.mk "id" "c" (AudioBuffer.mk 24000 [[(((0 : ℤ) : ℚ) / 32768)]]))), (3, some (GeneratedAudioChunk.mk "id" "d" (AudioBuffer.mk 24000 [[(((0 : ℤ) : ℚ) / 32768)]]))), (4, some (GeneratedAudioChunk.mk "id" "e" (AudioBuffer.mk 24000 [[(((0 : ℤ) : ℚ) / 32768)]])))] =
        inOrderChunks ["a", "b", "c", "d", "e"]
          (fun _ => Except.ok (some ['A', 'A', 'A', '='])) (fun _ => "id") :=
  ⟨⟨rfl, List.Perm.swap _ _ _⟩,
    c1_order_preserved ["a", "b", "c", "d", "e"]
      (fun _ => Except.ok (some ['A', 'A', 'A', '='])) (fun _ => "id")
      [(0, some (GeneratedAudioChunk.mk "id" "a" (AudioBuffer.mk 24000 [[(((0 : ℤ) : ℚ) / 32768)]]))), (1, some (GeneratedAudioChunk.mk "id" "b" (AudioBuffer.mk 24000 [[(((0 : ℤ) : ℚ) / 32768)]]))), (2, some (GeneratedAudioChunk.mk "id" "c" (AudioBuffer.mk 24000 [[(((0 : ℤ) : ℚ) / 32768)]]))), (3, some (GeneratedAudioChunk.mk "id" "d" (AudioBuffer.mk 24000 [[(((0 : ℤ) : ℚ) / 32768)]]))), (4, some (GeneratedAudioChunk.mk "id" "e" (AudioBuffer.mk 24000 [[(((0 : ℤ) : ℚ) / 32768)]])))]
      [(1, some (GeneratedAudioChunk.mk "id" "b" (AudioBuffer.mk 24000 [[(((0 : ℤ) : ℚ) / 32768)]]))), (0, some (GeneratedAudioChunk.mk "id" "a" (AudioBuffer.mk 24000 [[(((0 : ℤ) : ℚ) / 32768)]]))), (2, some (GeneratedAudioChunk.mk "id" "c" (AudioBuffer.mk 24000 [[(((0 : ℤ) : ℚ) / 32768)]]))), (3, some (GeneratedAudioChunk.mk "id" "d" (AudioBuffer.mk 24000 [[(((0 : ℤ) : ℚ) / 32768)]]))), (4, some (GeneratedAudioChunk.mk "id" "e" (AudioBuffer.mk 24000 [[(((0 : ℤ) : ℚ) / 32768)]])))]
      rfl (List.Perm.swap _ _ _)⟩

/-! ## Claim C9: sample-exact concatenation. -/

theorem getChannelData_length (b : AudioBuffer) (hbwf : b.WF) (c : ℕ)
    (hc : c < b.numberOfChannels) :
    (b.getChannelData c).length = b.length := by
  unfold AudioBuffer.getChannelData
  have hmem : b.channelData.getD c [] ∈ b.channelData := by
    rw [List.getD_eq_getElem?_getD, List.getElem?_eq_getElem hc]
    exact List.getElem_mem hc
  exact hbwf _ hmem

theorem setAt_length (dst src : List ℚ) (offset : ℕ)
    (h : offset + src.length ≤ dst.length) :
    (setAt dst src offset).length = dst.length := by
  unfold setAt
  simp only [List.length_append, List.length_take, List.length_drop]
  omega

theorem take_setAt (dst src : List ℚ) (offset : ℕ)
    (h : offset ≤ dst.length) :
    (setAt dst src offset).take (offset + src.length) =
      dst.take offset ++ src := by
  unfold setAt
  rw [show offset + src.length =
    (dst.take offset ++ src).length from by
      simp only [List.length_append, List.length_take]
      omega]
  exact List.take_left _ _

theorem copyChunks_spec (ch : ℕ) :
    ∀ (bufs : List AudioBuffer) (acc : AudioBuffer) (offset : ℕ),
      acc.channelData.length = ch →
      (∀ b ∈ bufs, b.numberOfChannels = ch) →
      (∀ b ∈ bufs, b.WF) →
      (∀ c < ch, (acc.getChannelData c).length =
        offset + (bufs.map AudioBuffer.length).sum) →
      (copyChunks ch bufs acc offset).sampleRate = acc.sampleRate ∧
        ∀ c < ch, (copyChunks ch bufs acc offset).getChannelData c =
          (acc.getChannelData c).take offset ++
            (bufs.map fun b => b.getChannelData c).flatten := by
  intro bufs
  induction bufs with
  | nil =>
      intro acc offset _ _ _ hlen
      refine ⟨rfl, ?_⟩
      intro c hc
      show acc.getChannelData c =
        (acc.getChannelData c).take offset ++ ([] : List (List ℚ)).flatten
      rw [List.flatten_nil, List.append_nil]
      rw [List.take_of_length_le (by
        have := hlen c hc
        simp only [List.map_nil, List.sum_nil] at this
        omega)]
  | cons buffer rest ih =>
      intro acc offset hacc hch hwf hlen
      have hbch : buffer.numberOfChannels = ch := hch buffer (by simp)
      have hbwf : buffer.WF := hwf buffer (by simp)
      have hblen : ∀ c < ch, (buffer.getChannelData c).length =
          buffer.length := by
        intro c hc
        exact getChannelData_length buffer hbwf c (by omega)
      have hstep : copyChunks ch (buffer :: rest) acc offset =
          copyChunks ch rest
            { acc with
                channelData := (List.range ch).map fun channel =>
                  if channel < buffer.numberOfChannels then
                    setAt (acc.getChannelData channel)
                      (buffer.getChannelData channel) offset
                  else acc.getChannelData channel }
            (offset + buffer.length) := rfl
      have hchan1 : ∀ c < ch,
          ({ acc with
              channelData := (List.range ch).map fun channel =>
                if channel < buffer.numberOfChannels then
                  setAt (acc.getChannelData channel)
                    (buffer.getChannelData channel) offset
                else acc.getChannelData channel } :
            AudioBuffer).getChannelData c =
          setAt (acc.getChannelData c) (buffer.getChannelData c) offset := by
        intro c hc
        show ((List.range ch).map fun channel =>
            if channel < buffer.numberOfChannels then
              setAt (acc.getChannelData channel)
                (buffer.getChannelData channel) offset
            else acc.getChannelData channel).getD c [] = _
        rw [getD_map_range _ _ hc, if_pos (by omega)]
      have hlen1 : ∀ c < ch,
          (({ acc with
              channelData := (List.range ch).map fun channel =>
                if channel < buffer.numberOfChannels then
                  setAt (acc.getChannelData channel)
                    (buffer.getChannelData channel) offset
                else acc.getChannelData channel } :
            AudioBuffer).getChannelData c).length =
          offset + buffer.length + (rest.map AudioBuffer.length).sum := by
        intro c hc
        rw [hchan1 c hc]
        rw [setAt_length _ _ _ (by
          have := hlen c hc
          simp only [List.map_cons, List.sum_cons] at this
          rw [hblen c hc]
          omega)]
        have := hlen c hc
        simp only [List.map_cons, List.sum_cons] at this
        omega
      obtain ⟨hrate, hchain⟩ := ih
        { acc with
            channelData := (List.range ch).map fun channel =>
              if channel < buffer.numberOfChannels then
                setAt (acc.getChannelData channel)
                  (buffer.getChannelData channel) offset
              else acc.getChannelData channel }
        (offset + buffer.length)
        (by simp)
        (fun b hb => hch b (by simp [hb]))
        (fun b hb => hwf b (by simp [hb]))
        (fun c hc => by rw [hlen1 c hc])
      refine ⟨by rw [hstep, hrate], ?_⟩
      intro c hc
      rw [hstep, hchain c hc, hchan1 c hc]
      rw [show offset + buffer.length =
        offset + (buffer.getChannelData c).length from by
          rw [hblen c hc]]
      rw [take_setAt _ _ _ (by
        have := hlen c hc
        simp only [List.map_cons, List.sum_cons] at this
        omega)]
      rw [List.map_cons, List.flatten_cons, List.append_assoc]

/-- C9: combining a non-empty sequence of decoded buffers that share a
channel count and a sample rate yields one buffer whose length is the sum
of the input lengths and whose channel data is, per channel, the
concatenation of the inputs' channel data in input order — each input
occupies the next contiguous offset range. -/
theorem c9_combiner (chunks : List AudioBuffer) (ch r : ℕ)
    (hne : chunks ≠ [])
    (hch : ∀ b ∈ chunks, b.numberOfChannels = ch)
    (hr : ∀ b ∈ chunks, b.sampleRate = r)
    (hwf : ∀ b ∈ chunks, b.WF)
    (hpos : 0 < ch) :
    ∃ combined, combineChunks chunks = some combined ∧
      combined.sampleRate = r ∧
      combined.length = (chunks.map AudioBuffer.length).sum ∧
      ∀ c < ch, combined.getChannelData c =
        (chunks.map fun b => b.getChannelData c).flatten := by
  cases chunks with
  | nil => exact absurd rfl hne
  | cons b0 rest =>
      cases rest with
      | nil =>
          refine ⟨b0, rfl, hr b0 (by simp), ?_, ?_⟩
          · simp
          · intro c hc
            simp
      | cons b1 rest2 =>
          have hb0 : b0.numberOfChannels = ch := hch b0 (by simp)
          subst hb0
          have hcreated_len : ∀ c < b0.numberOfChannels,
              ((createBuffer b0.numberOfChannels
                ((List.map AudioBuffer.length (b0 :: b1 :: rest2)).sum)
                b0.sampleRate).getChannelData c).length =
              0 + (List.map AudioBuffer.length (b0 :: b1 :: rest2)).sum := by
            intro c hc
            unfold createBuffer AudioBuffer.getChannelData
            rw [List.getD_eq_getElem?_getD, List.getElem?_replicate]
            rw [if_pos (by omega)]
            simp
          obtain ⟨hrate, hchan⟩ := copyChunks_spec b0.numberOfChannels
            (b0 :: b1 :: rest2)
            (createBuffer b0.numberOfChannels
              ((List.map AudioBuffer.length (b0 :: b1 :: rest2)).sum)
              b0.sampleRate)
            0
            (by
              unfold createBuffer
              simp)
            hch hwf hcreated_len
          refine ⟨copyChunks b0.numberOfChannels (b0 :: b1 :: rest2)
            (createBuffer b0.numberOfChannels
              ((List.map AudioBuffer.length (b0 :: b1 :: rest2)).sum)
              b0.sampleRate) 0, rfl, ?_, ?_, ?_⟩
          · rw [hrate]
            exact hr b0 (by simp)
          · show ((copyChunks b0.numberOfChannels (b0 :: b1 :: rest2)
              _ 0).channelData.getD 0 []).length = _
            have h0 := hchan 0 hpos
            unfold AudioBuffer.getChannelData at h0
            rw [h0, List.take_zero, List.nil_append, List.length_flatten]
            rw [List.map_map]
            rfl
          · intro c hc
            rw [hchan c hc, List.take_zero, List.nil_append]

/-- Witness for C9 on mono buffers of lengths 2, 1 and 3. -/
theorem c9_combiner_witness :
    (([AudioBuffer.mk 8 [[1, 2]], AudioBuffer.mk 8 [[3]],
        AudioBuffer.mk 8 [[4, 5, 6]]] : List AudioBuffer) ≠ [] ∧
      (∀ b ∈ ([AudioBuffer.mk 8 [[1, 2]], AudioBuffer.mk 8 [[3]],
        AudioBuffer.mk 8 [[4, 5, 6]]] : List AudioBuffer),
          b.numberOfChannels = 1 ∧ b.sampleRate = 8 ∧ b.WF) ∧ 0 < 1) ∧
      ∃ combined, combineChunks
          [AudioBuffer.mk 8 [[1, 2]], AudioBuffer.mk 8 [[3]],
            AudioBuffer.mk 8 [[4, 5, 6]]] = some combined ∧
        combined.sampleRate = 8 ∧
        combined.length =
          (([AudioBuffer.mk 8 [[1, 2]], AudioBuffer.mk 8 [[3]],
            AudioBuffer.mk 8 [[4, 5, 6]]] : List AudioBuffer).map
              AudioBuffer.length).sum ∧
        ∀ c < 1, combined.getChannelData c =
          (([AudioBuffer.mk 8 [[1, 2]], AudioBuffer.mk 8 [[3]],
            AudioBuffer.mk 8 [[4, 5, 6]]] : List AudioBuffer).map
              fun b => b.getChannelData c).flatten :=
  ⟨⟨by decide, by decide, by decide⟩,
    c9_combiner
      [AudioBuffer.mk 8 [[1, 2]], AudioBuffer.mk 8 [[3]],
        AudioBuffer.mk 8 [[4, 5, 6]]] 1 8
      (by decide)
      (by decide)
      (by decide)
      (by decide)
      (by decide)⟩

end Vedoice
